import Mathlib

/-!
Shallow embedding of `src/main.py` of the seart-group/github-keyword-crawler
repository, and proofs about it.

Modelling conventions:
* Python `datetime` values are modelled by `Dt`: whole seconds since the Unix
  epoch (`Int`) plus a microsecond component (`Nat`, `< 1000000` in every value
  the program constructs).  All datetimes the program compares are normalized
  to UTC, so an absolute second count is faithful.
* Every datetime that becomes an interval bound has passed through the
  `round_datetime` decorator, hence has microsecond `0`; interval bounds are
  therefore plain `Int` second counts.
* `timestamp()` / `fromtimestamp` arithmetic on these magnitudes is exact in
  IEEE doubles (integers and half-integers far below `2^52`), so the float
  midpoint `(lower_ts + upper_ts) / 2` is modelled exactly: an integer part
  plus a fractional part that is either `0` or `1/2` (500000 microseconds).
* The `deque` used by `Miner.__call__` appends and pops on the right; it is
  modelled as a list with the top of the stack at the head.
* Fallible operations return explicit result types instead of raising.
-/

namespace GHKC

/-- Python `datetime`: whole seconds since the Unix epoch plus a microsecond
component. -/
structure Dt where
  sec : Int
  micro : Nat
deriving DecidableEq, Repr

/-- Embedding of the `round_datetime` decorator (src/main.py lines 35-58): if
the microsecond component is at least 500000 the datetime is advanced by one
second, and the microsecond component is set to zero. -/
def round_datetime (d : Dt) : Dt :=
  if 500000 ≤ d.micro then { sec := d.sec + 1, micro := 0 }
  else { sec := d.sec, micro := 0 }

/-- The exception raised by `Miner._median_date` (src/main.py line 61). -/
inductive MinerError where
  | timeDifferenceTooSmallException
deriving DecidableEq, Repr

/-- Outcome of `Miner._median_date`: a returned timestamp or a raised
exception. -/
inductive MedianResult where
  | ok (t : Int)
  | raised (e : MinerError)
deriving DecidableEq, Repr

/-- Python `timedelta.seconds` for a timedelta of `t` whole seconds: the
normalized sub-day seconds component, always in `[0, 86400)` (days absorb the
rest, with floor semantics for negative deltas).  Lean's `%` on `Int` has
exactly this convention for a positive modulus. -/
def timedeltaSeconds (t : Int) : Int :=
  t % 86400

/-- Python `datetime.fromtimestamp(s / 2, tz=utc)` for an integer `s`: the
float `s / 2` is exact, with integer part `⌊s / 2⌋` and fractional part `0` or
one half, i.e. microsecond component `0` or `500000`. -/
def fromtimestampHalf (s : Int) : Dt :=
  { sec := s / 2, micro := if s % 2 = 0 then 0 else 500000 }

/-- Embedding of `Miner._median_date` (src/main.py lines 211-220), including
its `@round_datetime` decorator.  The guard tests `delta.seconds`, the sub-day
seconds component of the timedelta, against 1; on success the midpoint
`(lower_ts + upper_ts) / 2` is taken and rounded half-up to whole seconds.
Arguments are whole-second datetimes (all call sites pass rounded values). -/
def _median_date (lower upper : Int) : MedianResult :=
  if timedeltaSeconds (upper - lower) ≤ 1 then
    MedianResult.raised MinerError.timeDifferenceTooSmallException
  else
    MedianResult.ok (round_datetime (fromtimestampHalf (lower + upper))).sec

/-- Maximum page size offered by the GitHub API (src/main.py line 105). -/
def MAX_PAGE_SIZE : Nat := 100

/-- Maximum number of results obtainable from an API search
(src/main.py line 108). -/
def MAX_RESULT_COUNT : Nat := MAX_PAGE_SIZE * 10

/-- An `Interval.between(lower, upper)` value from the `interval` package as
the program uses it: a pair of bounds, both rounded datetimes. -/
structure Interval where
  lower_bound : Int
  upper_bound : Int
deriving DecidableEq, Repr

/-- Constructor used at src/main.py lines 166, 244, 245. -/
def Interval.between (lower upper : Int) : Interval :=
  { lower_bound := lower, upper_bound := upper }

/-- Raw data of one search result; its structure is irrelevant here, an
identifier stands in for the document. -/
abbrev RawRecord := Nat

/-- The paginated result handle the search function returns for an interval:
`totalCount` as first reported, `totalCountAfterFetch` as re-reported once the
first page has been materialized (the PyGithub quirk worked around at
src/main.py lines 233-235), and the per-item outcome of requesting each
record's raw data (`none` models an `UnknownObjectException`). -/
structure SearchResults where
  totalCount : Nat
  totalCountAfterFetch : Nat
  items : List (Option RawRecord)
deriving DecidableEq, Repr

/-- Embedding of `Miner._convert` (src/main.py lines 155-162): items whose raw
data request raises the not-found exception are logged and dropped, the rest
are collected in order. -/
def _convert (results : List (Option RawRecord)) : List RawRecord :=
  results.filterMap id

/-- Observable side effects of one loop iteration (beyond the initial search
query itself, which every iteration performs exactly once). -/
inductive Effect where
  | fetchFirstPage
  | store (batch : List RawRecord)
deriving DecidableEq, Repr

/-- The defensive accesses performed at src/main.py lines 233-234:
`results[0]` is evaluated exactly when the first-reported total equals
`MAX_RESULT_COUNT`. -/
def defensiveEffects (res : SearchResults) : List Effect :=
  if res.totalCount = MAX_RESULT_COUNT then [Effect.fetchFirstPage] else []

/-- The total the loop decides on (src/main.py line 235): re-read after the
defensive first-page fetch when that fetch happened, otherwise the first
reported value. -/
def effectiveTotal (res : SearchResults) : Nat :=
  if res.totalCount = MAX_RESULT_COUNT then res.totalCountAfterFetch
  else res.totalCount

/-- Embedding of one iteration of the `while` body of `Miner.__call__`
(src/main.py lines 225-251) applied to the popped interval `iv` whose search
returned `res`.  Returns the effects performed, in order, and the intervals
pushed onto the queue, in push order: on a successful split first
`Interval.between(median, upper)`, then `Interval.between(lower, median)`;
when the split raises `TimeDifferenceTooSmallException` the loop falls
through and converts and stores the results; totals in `(0, cap]` are
likewise converted and stored; a zero total is skipped. -/
def loopBody (res : SearchResults) (iv : Interval) : List Effect × List Interval :=
  if effectiveTotal res = 0 then
    (defensiveEffects res, [])
  else if MAX_RESULT_COUNT < effectiveTotal res then
    match _median_date iv.lower_bound iv.upper_bound with
    | MedianResult.ok median =>
        (defensiveEffects res,
         [Interval.between median iv.upper_bound,
          Interval.between iv.lower_bound median])
    | MedianResult.raised _ =>
        (defensiveEffects res ++ [Effect.store (_convert res.items)], [])
  else
    (defensiveEffects res ++ [Effect.store (_convert res.items)], [])

/-- One iteration of the scheduler loop on the whole queue: pop the interval
most recently pushed (the `deque` is used LIFO: `pop`/`append` on the right,
modelled with the stack top at the head), run the body, push the produced
intervals in order.  An empty queue is left unchanged (the loop has exited). -/
def stepQueue (search : Interval → SearchResults) (queue : List Interval) :
    List Interval :=
  match queue with
  | [] => []
  | iv :: rest => (loopBody (search iv) iv).2.reverse ++ rest

/-- Embedding of `Miner._lower_date_default` (src/main.py lines 201-204):
2022-12-01T00:00:00Z as a Unix second count. -/
def _lower_date_default : Int := 1669852800

/-- Embedding of `Miner._lower_date` (src/main.py lines 169-188).  `stored` is
the list of timestamps present in the collection under the target kind's
timestamp field path, as whole-second instants (GitHub timestamps carry no
sub-second part, so parsing and rounding are the identity on them).  The Mongo
query sorts descending on that field and takes at most one document, i.e. it
yields the maximum stored timestamp when the collection is non-empty;
otherwise the default document is used. -/
def _lower_date (stored : List Int) : Int :=
  match stored.max? with
  | some t => t
  | none => _lower_date_default

/-- An HTTP response as `GitHubRetry.get_retry_after` inspects it: a status
code, the optional `X-RateLimit-Reset` header (integer Unix seconds), and the
optional `Retry-After` header (in seconds, as the default urllib3 policy would
parse it).  `now` is passed separately; rationals model the fractional seconds
of `datetime.now()` and `total_seconds()`. -/
structure HTTPResponse where
  status : Nat
  xRateLimitReset : Option Int
  retryAfterHeader : Option ℚ
deriving DecidableEq

/-- Modelled from the spec (section 4.3, the collaborator interface): the
underlying urllib3 default `Retry.get_retry_after`, which returns the parsed
`Retry-After` header when present and nothing otherwise. -/
def defaultGetRetryAfter (response : HTTPResponse) : Option ℚ :=
  response.retryAfterHeader

/-- Outcome of `GitHubRetry.get_retry_after`: a returned value (possibly
`None`) or the `KeyError` raised by the header subscript. -/
inductive RetryAfterResult where
  | value (q : Option ℚ)
  | keyError
deriving DecidableEq

/-- Embedding of `GitHubRetry.get_retry_after` (src/main.py lines 90-99).  On
status 403 it reads `X-RateLimit-Reset` (raising `KeyError` when absent) and
returns `max(reset - now + 1, 0)`.  On any other status it logs a warning and
calls `super().get_retry_after(response)` but discards that call's result:
lacking a `return`, the method returns `None`. -/
def get_retry_after (response : HTTPResponse) (now : ℚ) : RetryAfterResult :=
  if response.status = 403 then
    match response.xRateLimitReset with
    | some reset => RetryAfterResult.value (some (max ((reset : ℚ) - now + 1) 0))
    | none => RetryAfterResult.keyError
  else
    RetryAfterResult.value none

/-- Width of an interval in seconds, clamped at zero. -/
def width (iv : Interval) : Nat :=
  (iv.upper_bound - iv.lower_bound).toNat

/-- Termination measure for the scheduler loop: each queued interval
contributes exponentially in its width. -/
def queueMeasure (queue : List Interval) : Nat :=
  (queue.map (fun iv => 3 ^ width iv)).sum

/-- The data-model invariant on queued intervals: lower bound at most the
upper bound. -/
def WellFormed (queue : List Interval) : Prop :=
  ∀ iv ∈ queue, iv.lower_bound ≤ iv.upper_bound

/-- When `_median_date` returns a timestamp on an ordered pair of bounds, that
timestamp lies strictly between them. -/
theorem median_ok_bounds (l u m : Int) (hle : l ≤ u)
    (h : _median_date l u = MedianResult.ok m) : l < m ∧ m < u := by
  unfold _median_date at h
  split at h
  · exact absurd h (by simp)
  · rename_i hg
    unfold timedeltaSeconds at hg
    by_cases hp : (l + u) % 2 = 0
    · simp [round_datetime, fromtimestampHalf, hp] at h
      omega
    · simp [round_datetime, fromtimestampHalf, hp] at h
      omega

/-- The pushed-interval component of `loopBody` is either empty or exactly the
two halves produced by a successful `_median_date`. -/
theorem loopBody_pushed_cases (res : SearchResults) (iv : Interval) :
    (loopBody res iv).2 = [] ∨
    ∃ m, _median_date iv.lower_bound iv.upper_bound = MedianResult.ok m ∧
      (loopBody res iv).2 =
        [Interval.between m iv.upper_bound, Interval.between iv.lower_bound m] := by
  unfold loopBody
  split
  · exact Or.inl rfl
  · split
    · cases hm : _median_date iv.lower_bound iv.upper_bound with
      | ok m => exact Or.inr ⟨m, rfl, by simp⟩
      | raised e => exact Or.inl (by simp)
    · exact Or.inl rfl

/-- Two powers of three with exponents below `c` sum to less than `3 ^ c`. -/
theorem pow3_add_lt (a b c : Nat) (ha : a < c) (hb : b < c) :
    3 ^ a + 3 ^ b < 3 ^ c := by
  have h1 : 3 ^ a ≤ 3 ^ (c - 1) := Nat.pow_le_pow_right (by norm_num) (by omega)
  have h2 : 3 ^ b ≤ 3 ^ (c - 1) := Nat.pow_le_pow_right (by norm_num) (by omega)
  have h3 : 3 ^ c = 3 * 3 ^ (c - 1) := by
    conv_lhs => rw [show c = (c - 1) + 1 by omega]
    rw [pow_succ]
    ring
  have h4 : 0 < 3 ^ (c - 1) := pow_pos (by norm_num) _
  omega

/-- One scheduler iteration on a non-empty well-formed queue strictly
decreases the termination measure: a skip or an ingest removes the popped
interval, and a split replaces it by two strictly narrower halves. -/
theorem stepQueue_measure_lt (search : Interval → SearchResults)
    (iv : Interval) (rest : List Interval) (hwf : WellFormed (iv :: rest)) :
    queueMeasure (stepQueue search (iv :: rest)) < queueMeasure (iv :: rest) := by
  have hle : iv.lower_bound ≤ iv.upper_bound := hwf iv (by simp)
  rcases loopBody_pushed_cases (search iv) iv with h | ⟨m, hm, h⟩
  · simp only [stepQueue, h, List.reverse_nil, List.nil_append, queueMeasure,
      List.map_cons, List.sum_cons]
    have : 0 < 3 ^ width iv := pow_pos (by norm_num) _
    omega
  · obtain ⟨h1, h2⟩ := median_ok_bounds _ _ _ hle hm
    simp only [stepQueue, h, queueMeasure, List.reverse_cons, List.reverse_nil,
      List.nil_append, List.cons_append, List.map_cons, List.sum_cons,
      List.map_append, List.sum_append]
    have hlt := pow3_add_lt (width (Interval.between iv.lower_bound m))
      (width (Interval.between m iv.upper_bound)) (width iv)
      (by unfold width Interval.between; simp only []; omega)
      (by unfold width Interval.between; simp only []; omega)
    omega

/-- One scheduler iteration preserves the interval invariant: the halves of a
split inherit ordered bounds from the strict betweenness of the median. -/
theorem stepQueue_preserves_wf (search : Interval → SearchResults)
    (queue : List Interval) (hwf : WellFormed queue) :
    WellFormed (stepQueue search queue) := by
  cases queue with
  | nil => simpa [stepQueue] using hwf
  | cons iv rest =>
    have hle : iv.lower_bound ≤ iv.upper_bound := hwf iv (by simp)
    have hrest : ∀ jv ∈ rest, jv.lower_bound ≤ jv.upper_bound :=
      fun jv hjv => hwf jv (by simp [hjv])
    rcases loopBody_pushed_cases (search iv) iv with h | ⟨m, hm, h⟩
    · simp only [stepQueue, h, List.reverse_nil, List.nil_append]
      exact hrest
    · obtain ⟨h1, h2⟩ := median_ok_bounds _ _ _ hle hm
      simp only [stepQueue, h, List.reverse_cons, List.reverse_nil,
        List.nil_append, List.cons_append]
      intro jv hjv
      rcases hjv with _ | ⟨_, hjv⟩
      · exact le_of_lt h1
      · rcases hjv with _ | ⟨_, hjv⟩
        · exact le_of_lt h2
        · exact hrest jv hjv

/-- The effect list of `loopBody` is the defensive accesses, optionally
followed by exactly one store of the converted results. -/
theorem loopBody_effects_cases (res : SearchResults) (iv : Interval) :
    (loopBody res iv).1 = defensiveEffects res ∨
    (loopBody res iv).1 =
      defensiveEffects res ++ [Effect.store (_convert res.items)] := by
  unfold loopBody
  split
  · exact Or.inl rfl
  · split
    · cases hm : _median_date iv.lower_bound iv.upper_bound with
      | ok m => exact Or.inl rfl
      | raised e => exact Or.inr rfl
    · exact Or.inr rfl

/-- C1: when the re-measured total of a dequeued interval strictly exceeds
`MAX_RESULT_COUNT`, a successful split pushes exactly the two sub-intervals
`(median, upper)` then `(lower, median)` and performs no store of the
interval's records, while a split that raises
`TimeDifferenceTooSmallException` pushes nothing and falls through to
converting and storing the over-cap interval's results. -/
theorem over_cap_splits_or_ingests (res : SearchResults) (iv : Interval)
    (hover : MAX_RESULT_COUNT < effectiveTotal res) :
    (∀ m, _median_date iv.lower_bound iv.upper_bound = MedianResult.ok m →
      (loopBody res iv).2 =
        [Interval.between m iv.upper_bound, Interval.between iv.lower_bound m] ∧
      ∀ batch, Effect.store batch ∉ (loopBody res iv).1) ∧
    (∀ e, _median_date iv.lower_bound iv.upper_bound = MedianResult.raised e →
      (loopBody res iv).2 = [] ∧
      Effect.store (_convert res.items) ∈ (loopBody res iv).1) := by
  have hnz : ¬ effectiveTotal res = 0 := fun h0 => Nat.not_lt_zero _ (h0 ▸ hover)
  constructor
  · intro m hm
    constructor
    · unfold loopBody
      rw [if_neg hnz, if_pos hover, hm]
    · intro batch
      unfold loopBody
      rw [if_neg hnz, if_pos hover, hm]
      show Effect.store batch ∉ defensiveEffects res
      unfold defensiveEffects
      split <;> simp
  · intro e he
    constructor
    · unfold loopBody
      rw [if_neg hnz, if_pos hover, he]
    · unfold loopBody
      rw [if_neg hnz, if_pos hover, he]
      exact List.mem_append_right _ (by simp)

/-- Witness for C1 at a total of 1500: the interval `[0, 100]` is replaced by
its two halves with nothing stored, and the one-second interval `[0, 1]`,
which cannot be narrowed, is ingested. -/
theorem over_cap_splits_or_ingests_witness :
    ((loopBody ⟨1500, 1500, [some 1]⟩ (Interval.between 0 100)).2 =
      [Interval.between 50 100, Interval.between 0 50] ∧
     ∀ batch, Effect.store batch ∉
       (loopBody ⟨1500, 1500, [some 1]⟩ (Interval.between 0 100)).1) ∧
    ((loopBody ⟨1500, 1500, [some 1]⟩ (Interval.between 0 1)).2 = [] ∧
     Effect.store (_convert [some 1]) ∈
       (loopBody ⟨1500, 1500, [some 1]⟩ (Interval.between 0 1)).1) :=
  ⟨(over_cap_splits_or_ingests ⟨1500, 1500, [some 1]⟩ (Interval.between 0 100)
      (by decide)).1 50 (by decide),
   (over_cap_splits_or_ingests ⟨1500, 1500, [some 1]⟩ (Interval.between 0 1)
      (by decide)).2 MinerError.timeDifferenceTooSmallException (by decide)⟩

/-- C2: counterexample to "raises if and only if at most one second wide":
the guard tests `delta.seconds`, the sub-day component of the timedelta, so
the interval `[0, 86400]` — exactly one day, far wider than one second — also
raises `TimeDifferenceTooSmallException`; the two in-spec directions are shown
at one and two seconds. -/
theorem median_guard_day_wide_failing_input :
    _median_date 0 86400 =
      MedianResult.raised MinerError.timeDifferenceTooSmallException ∧
    (1 : Int) < 86400 - 0 ∧
    _median_date 0 1 =
      MedianResult.raised MinerError.timeDifferenceTooSmallException ∧
    _median_date 0 2 = MedianResult.ok 1 := by
  decide

/-- C3: the interval `[0, 86401]` is over a day wide, yet `_median_date`
raises instead of returning the rounded midpoint, because `delta.seconds` is 1
there; on intervals the guard does accept, the returned value is the half-up
rounded midpoint and the split pushes `(median, upper)` then
`(lower, median)`, as shown at widths 7 and 8. -/
theorem median_midpoint_day_plus_one_failing_input :
    _median_date 0 86401 =
      MedianResult.raised MinerError.timeDifferenceTooSmallException ∧
    (1 : Int) < 86401 - 0 ∧
    _median_date 0 7 = MedianResult.ok 4 ∧
    _median_date 0 8 = MedianResult.ok 4 ∧
    (loopBody ⟨1500, 1500, []⟩ (Interval.between 0 8)).2 =
      [Interval.between 4 8, Interval.between 0 4] := by
  decide

/-- C4: for every search outcome assignment and every well-formed starting
queue, the scheduler's main loop terminates: finitely many iterations empty
the queue, since a successful split replaces an interval by two strictly
narrower ones and every other case removes the popped interval. -/
theorem crawl_loop_terminates (search : Interval → SearchResults)
    (queue : List Interval) (hwf : WellFormed queue) :
    ∃ n, (stepQueue search)^[n] queue = [] := by
  have main : ∀ bound q, queueMeasure q ≤ bound → WellFormed q →
      ∃ n, (stepQueue search)^[n] q = [] := by
    intro bound
    induction bound with
    | zero =>
      intro q hq _
      cases q with
      | nil => exact ⟨0, rfl⟩
      | cons iv rest =>
        exfalso
        have hpow : 0 < 3 ^ width iv := pow_pos (by norm_num) _
        simp only [queueMeasure, List.map_cons, List.sum_cons] at hq
        omega
    | succ bound ih =>
      intro q hq hwfq
      cases q with
      | nil => exact ⟨0, rfl⟩
      | cons iv rest =>
        have hlt := stepQueue_measure_lt search iv rest hwfq
        obtain ⟨n, hn⟩ := ih (stepQueue search (iv :: rest)) (by omega)
          (stepQueue_preserves_wf search _ hwfq)
        exact ⟨n + 1, by rw [Function.iterate_succ_apply]; exact hn⟩
  exact main (queueMeasure queue) queue le_rfl hwf

/-- Witness for C4: a queue holding `[0, 10]` against a search that always
reports an over-cap total still drains in finitely many iterations. -/
theorem crawl_loop_terminates_witness :
    ∃ n, (stepQueue (fun _ => ⟨1500, 1500, []⟩))^[n] [Interval.between 0 10] = [] :=
  crawl_loop_terminates (fun _ => ⟨1500, 1500, []⟩) [Interval.between 0 10]
    (by unfold WellFormed; decide)

/-- C5: `_lower_date` returns the maximum timestamp present in the store
whenever the store is non-empty, and the fixed default epoch exactly when the
store is empty. -/
theorem lower_bound_resume_spec (stored : List Int) :
    (stored = [] → _lower_date stored = _lower_date_default) ∧
    (stored ≠ [] →
      ∃ t, t ∈ stored ∧ (∀ s ∈ stored, s ≤ t) ∧ _lower_date stored = t) := by
  constructor
  · intro h
    subst h
    rfl
  · intro h
    cases hmax : stored.max? with
    | none => exact absurd (List.max?_eq_none_iff.mp hmax) h
    | some t =>
      refine ⟨t, List.max?_mem (fun a b => max_choice a b) hmax, ?_, ?_⟩
      · intro s hs
        exact (List.max?_le_iff (fun a b c => max_le_iff) hmax).mp le_rfl s hs
      · unfold _lower_date
        rw [hmax]

/-- Witness for C5: an empty store resumes from the default epoch and the
store `[7, 3, 9]` resumes from its maximum. -/
theorem lower_bound_resume_spec_witness :
    _lower_date [] = _lower_date_default ∧
    (∃ t, t ∈ [(7 : Int), 3, 9] ∧ (∀ s ∈ [(7 : Int), 3, 9], s ≤ t) ∧
      _lower_date [7, 3, 9] = t) :=
  ⟨(lower_bound_resume_spec []).1 rfl,
   (lower_bound_resume_spec [7, 3, 9]).2 (by decide)⟩

/-- C6: on status 403 with a reset header, the retry-after value is
`max(reset - now + 1, 0)`; it is never negative, and a reset five seconds
ahead of now sleeps exactly six seconds. -/
theorem rate_limit_sleep_formula (response : HTTPResponse) (now : ℚ)
    (reset : Int) (hstatus : response.status = 403)
    (hheader : response.xRateLimitReset = some reset) :
    get_retry_after response now =
      RetryAfterResult.value (some (max ((reset : ℚ) - now + 1) 0)) ∧
    (0 : ℚ) ≤ max ((reset : ℚ) - now + 1) 0 ∧
    ((reset : ℚ) = now + 5 →
      get_retry_after response now = RetryAfterResult.value (some 6)) := by
  have hval : get_retry_after response now =
      RetryAfterResult.value (some (max ((reset : ℚ) - now + 1) 0)) := by
    unfold get_retry_after
    rw [if_pos hstatus, hheader]
  refine ⟨hval, le_max_right _ _, ?_⟩
  intro h5
  rw [hval, h5]
  have h6 : now + 5 - now + 1 = (6 : ℚ) := by ring
  rw [h6, max_eq_left (by norm_num)]

/-- Witness for C6: reset at 105 and now at 100 sleeps six seconds. -/
theorem rate_limit_sleep_formula_witness :
    get_retry_after ⟨403, some 105, none⟩ 100 = RetryAfterResult.value (some 6) :=
  (rate_limit_sleep_formula ⟨403, some 105, none⟩ 100 105 rfl rfl).2.2 (by norm_num)

/-- C7: the defensive first-page fetch happens exactly once when the first
reported total equals `MAX_RESULT_COUNT` and never otherwise, for every
search outcome and interval. -/
theorem cap_boundary_defensive_fetch (res : SearchResults) (iv : Interval) :
    ((loopBody res iv).1.count Effect.fetchFirstPage =
      if res.totalCount = MAX_RESULT_COUNT then 1 else 0) ∧
    (Effect.fetchFirstPage ∈ (loopBody res iv).1 ↔
      res.totalCount = MAX_RESULT_COUNT) := by
  rcases loopBody_effects_cases res iv with h | h <;>
    rw [h] <;>
    unfold defensiveEffects <;>
    split <;>
    simp_all

/-- C8: `round_datetime` zeroes the microsecond component, advancing the
second exactly when the component is at least 500000, and is idempotent. -/
theorem round_datetime_idempotent_half_up (d : Dt) :
    round_datetime (round_datetime d) = round_datetime d ∧
    (500000 ≤ d.micro → round_datetime d = { sec := d.sec + 1, micro := 0 }) ∧
    (d.micro < 500000 → round_datetime d = { sec := d.sec, micro := 0 }) := by
  by_cases h : 500000 ≤ d.micro
  · exact ⟨by simp [round_datetime, h], fun _ => by simp [round_datetime, h],
      fun hlt => absurd h (by omega)⟩
  · exact ⟨by simp [round_datetime, h], fun hge => absurd hge h,
      fun _ => by simp [round_datetime, h]⟩

/-- Witness for C8 at microseconds 600000 and 499999. -/
theorem round_datetime_idempotent_half_up_witness :
    round_datetime (round_datetime ⟨5, 600000⟩) = round_datetime ⟨5, 600000⟩ ∧
    round_datetime ⟨5, 600000⟩ = { sec := 6, micro := 0 } ∧
    round_datetime ⟨5, 499999⟩ = { sec := 5, micro := 0 } :=
  ⟨(round_datetime_idempotent_half_up ⟨5, 600000⟩).1,
   (round_datetime_idempotent_half_up ⟨5, 600000⟩).2.1 (by decide),
   (round_datetime_idempotent_half_up ⟨5, 499999⟩).2.2 (by decide)⟩

/-- C9: failing input for the fall-through claim: on a 429 response carrying
`Retry-After: 10`, the default policy yields 10 seconds, but the method
discards the `super()` call's result and returns `None`, so the two
disagree. -/
theorem non_forbidden_discards_default_value :
    get_retry_after ⟨429, none, some 10⟩ 0 = RetryAfterResult.value none ∧
    defaultGetRetryAfter ⟨429, none, some 10⟩ = some 10 ∧
    RetryAfterResult.value (defaultGetRetryAfter ⟨429, none, some 10⟩) ≠
      get_retry_after ⟨429, none, some 10⟩ 0 := by
  refine ⟨rfl, rfl, ?_⟩
  simp [get_retry_after, defaultGetRetryAfter]

/-- C10: when every record request fails with the not-found exception,
conversion yields the empty list, and an interval that reaches the ingest
branch still performs the store call with that empty batch — there is no
guard on batch emptiness. -/
theorem empty_batch_still_stored (res : SearchResults) (iv : Interval)
    (hall : ∀ x ∈ res.items, x = none)
    (hpos : ¬ effectiveTotal res = 0)
    (hcap : ¬ MAX_RESULT_COUNT < effectiveTotal res) :
    _convert res.items = [] ∧ Effect.store [] ∈ (loopBody res iv).1 := by
  have hconv : _convert res.items = [] := by
    unfold _convert
    rw [List.filterMap_eq_nil_iff]
    intro a ha
    simp [hall a ha]
  refine ⟨hconv, ?_⟩
  unfold loopBody
  rw [if_neg hpos, if_neg hcap]
  show Effect.store [] ∈ defensiveEffects res ++ [Effect.store (_convert res.items)]
  rw [hconv]
  exact List.mem_append_right _ (by simp)

/-- Witness for C10: a total of three whose three record requests all fail
still stores an empty batch. -/
theorem empty_batch_still_stored_witness :
    _convert [none, none, none] = [] ∧
    Effect.store [] ∈
      (loopBody ⟨3, 3, [none, none, none]⟩ (Interval.between 0 5)).1 :=
  empty_batch_still_stored ⟨3, 3, [none, none, none]⟩ (Interval.between 0 5)
    (by decide) (by decide) (by decide)

end GHKC
